import Mathlib

/-!
Shallow embedding of the CSV stream-reading engine in `src/reader.rs`
(`Reader`, `ReaderState`, `Headers`, `Position`, and the operations
`read_record_bytes`, `read_record_bytes_impl`, `add_record`, `headers`,
`byte_headers`, `set_headers`, `set_byte_headers`, `seek`, `seek_raw`,
`position`).

Bytes are modelled as `Nat`, records (`ByteRecord`) as lists of fields,
each field a list of bytes.  The external tokenizer (csv_core) and the
UTF-8 validation performed by `StringRecord` are not part of the source
tree; they are modelled from the spec (see the doc comments on
`tokenizeRecord` and `utf8FailAt`).  I/O is modelled by keeping the whole
byte content of the underlying source in the `data` field of `Reader`
together with the current read offset `rdrPos`; `fill_buf`/`consume` then
amount to reading at `rdrPos` and advancing it.
-/

namespace CsvReader

/-- A record as raw bytes: an ordered list of fields, each a byte list. -/
abbrev ByteRecord := List (List Nat)

/-- A validated text record.  Text decoding is external to the core; a
`StringRecord` is modelled as the (UTF-8 valid) bytes it decodes from,
since `into_byte_record` is lossless. -/
abbrev StringRecord := List (List Nat)

/-- `Position` from `src/reader.rs`: byte offset, 1-based line, 0-based
record index. -/
structure Position where
  byte : Nat
  line : Nat
  record : Nat
deriving DecidableEq, Repr

/-- `Position::new()`: the start position `{byte: 0, line: 1, record: 0}`. -/
def Position.start : Position := { byte := 0, line := 1, record := 0 }

/-- Modelled from the spec: the UTF-8 error produced by text decoding
(external `string_record` module), carrying the offending field index and
the byte offset within that field where validity broke (spec section 7). -/
structure Utf8Error where
  field : Nat
  valid_up_to : Nat
deriving DecidableEq, Repr

/-- The error kinds of the reader that the embedding can produce
(`Error::Seek`, `Error::UnequalLengths`, `Error::Utf8`).  Source I/O
failures have no counterpart because the modelled byte source is an
in-memory list and never fails. -/
inductive Error where
  | seek : Error
  | unequalLengths (expected_len : Nat) (pos : Position) (len : Nat) : Error
  | utf8 (pos : Option Position) (err : Utf8Error) : Error
deriving DecidableEq, Repr

deriving instance DecidableEq for Except

/-- `Headers` from `src/reader.rs`: the cached first row, its originating
position (absent when set manually), and its text-decoded form. -/
structure Headers where
  pos : Option Position
  byte_record : ByteRecord
  string_record : Except Utf8Error StringRecord
deriving DecidableEq, Repr

/-- `ReaderState` from `src/reader.rs`. -/
structure ReaderState where
  headers : Option Headers
  has_headers : Bool
  flexible : Bool
  first_field_count : Option Nat
  prev_pos : Position
  cur_pos : Position
  seeked : Bool
  first : Bool
  eof : Bool
deriving DecidableEq, Repr

/-- The configuration knobs of `ReaderBuilder` that the engine consumes
(`has_headers`, `flexible`).  Delimiter and terminator are fixed in the
modelled tokenizer; buffer capacity is irrelevant to the embedding. -/
structure Config where
  has_headers : Bool
  flexible : Bool
deriving DecidableEq, Repr

/-- `Reader` from `src/reader.rs`.  `data` is the full content of the
underlying byte source, `rdrPos` the current read offset into it (the
`BufReader` cursor), and `coreLine` the internal line counter of the
tokenizer (`core.line()`), reset and re-primed on seek. -/
structure Reader where
  data : List Nat
  rdrPos : Nat
  coreLine : Nat
  state : ReaderState
deriving DecidableEq, Repr

/-- `Reader::new`: a fresh reader over `data` with the given
configuration. -/
def mkReader (data : List Nat) (cfg : Config) : Reader :=
  { data := data
    rdrPos := 0
    coreLine := 1
    state :=
      { headers := none
        has_headers := cfg.has_headers
        flexible := cfg.flexible
        first_field_count := none
        prev_pos := Position.start
        cur_pos := Position.start
        seeked := false
        first := false
        eof := false } }

/-! ### Tokenizer model -/

/-- Modelled from the spec: split one terminated line into fields at the
delimiter (default `,` = byte 44), per the tokenizer contract of spec
section 4.2. -/
def splitFields : List Nat → List (List Nat)
  | [] => [[]]
  | b :: rest =>
    if b = 44 then [] :: splitFields rest
    else
      match splitFields rest with
      | [] => [[b]]
      | f :: fs => (b :: f) :: fs

/-- Modelled from the spec: consume one line from the input, returning
the line bytes (terminator excluded), the number of bytes consumed
(terminator included) and the number of record terminators consumed
(which advances the tokenizer line counter).  The default terminator `\n`
(byte 10) is used. -/
def tokenizeLine : List Nat → List Nat × Nat × Nat
  | [] => ([], 0, 0)
  | b :: rest =>
    if b = 10 then ([], 1, 1)
    else
      let r := tokenizeLine rest
      (b :: r.1, r.2.1 + 1, r.2.2)

/-- Modelled from the spec: the external incremental tokenizer (csv_core,
spec section 4.2), collapsed over the whole remaining input.  It returns
`none` at end of stream (empty remaining input) and otherwise one
complete record: its fields, the bytes consumed (including any
terminator; trailing data without a terminator is still a record), and
the line-counter advance. -/
def tokenizeRecord : List Nat → Option (ByteRecord × Nat × Nat)
  | [] => none
  | b :: rest =>
    let r := tokenizeLine (b :: rest)
    some (splitFields r.1, r.2.1, r.2.2)

/-! ### UTF-8 validation model -/

/-- Modelled from the spec: whether a byte is a UTF-8 continuation byte
(text decoding lives in the external `string_record` module). -/
def contByte (b : Nat) : Bool := 0x80 ≤ b && b < 0xC0

/-- Modelled from the spec: the byte offset at which UTF-8 validity
breaks within a field, or `none` if the field is valid text (spec
section 7: the error "carries ... the byte offset within that field
where validity broke"). -/
def utf8FailAt : List Nat → Nat → Option Nat
  | [], _ => none
  | b :: rest, i =>
    if b < 0x80 then utf8FailAt rest (i + 1)
    else if b < 0xC2 then some i
    else if b < 0xE0 then
      match rest with
      | c1 :: r => if contByte c1 then utf8FailAt r (i + 2) else some i
      | [] => some i
    else if b < 0xF0 then
      match rest with
      | c1 :: c2 :: r =>
        if contByte c1 && contByte c2 then utf8FailAt r (i + 3) else some i
      | _ => some i
    else if b < 0xF5 then
      match rest with
      | c1 :: c2 :: c3 :: r =>
        if contByte c1 && contByte c2 && contByte c3 then utf8FailAt r (i + 4)
        else some i
      | _ => some i
    else some i

/-- Modelled from the spec: the first field of a record that fails UTF-8
validation, together with its failure offset. -/
def firstFail : ByteRecord → Nat → Option (Nat × Nat)
  | [], _ => none
  | fld :: rest, i =>
    match utf8FailAt fld 0 with
    | some k => some (i, k)
    | none => firstFail rest (i + 1)

/-- Modelled from the spec: `StringRecord::from_byte_record` — decode a
raw record into a validated text record, or report where decoding
failed. -/
def from_byte_record (rec : ByteRecord) : Except Utf8Error StringRecord :=
  match firstFail rec 0 with
  | none => Except.ok rec
  | some p => Except.error { field := p.1, valid_up_to := p.2 }

/-! ### The engine, from `src/reader.rs` -/

/-- `ReaderState::add_record`: advance the record counter, enforce the
field-count invariant in strict mode, and update `prev_pos` on success.
On error the mutations already performed (the record-counter increment)
persist, exactly as in the source where the error return skips only the
trailing `prev_pos` update. -/
def add_record (st : ReaderState) (num_fields : Nat) : ReaderState × Option Error :=
  let st1 := { st with cur_pos := { st.cur_pos with record := st.cur_pos.record + 1 } }
  if !st1.flexible then
    match st1.first_field_count with
    | none =>
      let st2 := { st1 with first_field_count := some num_fields }
      ({ st2 with prev_pos := st2.cur_pos }, none)
    | some expected =>
      if num_fields ≠ expected then
        (st1, some (Error.unequalLengths expected st1.prev_pos num_fields))
      else
        ({ st1 with prev_pos := st1.cur_pos }, none)
  else
    ({ st1 with prev_pos := st1.cur_pos }, none)

/-- `Reader::read_record_bytes_impl`: the tokenizer-driving read loop.
The record buffer is cleared, then the tokenizer consumes from the
source; byte and line positions advance by what was consumed, and a
completed record goes through `add_record`.  At end of stream the `eof`
flag is set and a zero-field record is returned.  The returned reader
carries the state mutations even when the result is an error. -/
def read_record_bytes_impl (r : Reader) : Reader × ByteRecord × Except Error Bool :=
  if r.state.eof then (r, [], Except.ok true)
  else
    match tokenizeRecord (r.data.drop r.rdrPos) with
    | none =>
      ({ r with state := { r.state with eof := true } }, [], Except.ok true)
    | some (fields, nin, nl) =>
      let newLine := r.coreLine + nl
      let st0 := { r.state with
        cur_pos := { r.state.cur_pos with
          byte := r.state.cur_pos.byte + nin, line := newLine } }
      let res := add_record st0 fields.length
      let r1 := { r with rdrPos := r.rdrPos + nin, coreLine := newLine, state := res.1 }
      match res.2 with
      | none => (r1, fields, Except.ok false)
      | some e => (r1, fields, Except.error e)

/-- `Reader::set_headers_pos`: store the header cache, pairing the raw
and text forms (`inl` = caller-supplied text headers, `inr` = raw
bytes). -/
def set_headers_pos (r : Reader) (hdrs : Sum StringRecord ByteRecord)
    (pos : Option Position) : Reader :=
  let pair : Except Utf8Error StringRecord × ByteRecord :=
    match hdrs with
    | Sum.inl string => (Except.ok string, string)
    | Sum.inr bytes =>
      match from_byte_record bytes with
      | Except.ok s => (Except.ok s, bytes)
      | Except.error e => (Except.error e, bytes)
  { r with state := { r.state with
      headers := some { pos := pos, byte_record := pair.2, string_record := pair.1 } } }

/-- `Reader::set_headers`: manual override with a text record (clears the
originating position). -/
def set_headers (r : Reader) (hdrs : StringRecord) : Reader :=
  set_headers_pos r (Sum.inl hdrs) none

/-- `Reader::set_byte_headers`: manual override with a raw record (clears
the originating position). -/
def set_byte_headers (r : Reader) (hdrs : ByteRecord) : Reader :=
  set_headers_pos r (Sum.inr hdrs) none

/-- `Reader::position`: the current position (start boundary of the next
record to be read). -/
def position (r : Reader) : Position := r.state.cur_pos

/-- The shared tail of `read_record_bytes`: mark the first record
delivered and, on the first physical record of a non-seeked stream,
populate the header cache (re-reading once when headers are
suppressed). -/
def read_record_bytes_main (r : Reader) : Reader × ByteRecord × Except Error Bool :=
  let pos := r.state.cur_pos
  let step := read_record_bytes_impl r
  match step.2.2 with
  | Except.error e => (step.1, step.2.1, Except.error e)
  | Except.ok eof =>
    let r2 := { step.1 with state := { step.1.state with first := true } }
    if !r2.state.seeked && r2.state.headers.isNone then
      let r3 := set_headers_pos r2 (Sum.inr step.2.1) (some pos)
      if r3.state.has_headers then read_record_bytes_impl r3
      else (r3, step.2.1, Except.ok eof)
    else (r2, step.2.1, Except.ok eof)

/-- `Reader::read_record_bytes`: the public raw read.  When headers are
not suppressed (`has_headers` false), no record has been delivered yet
and a header is cached, the cached header is replayed without touching
the tokenizer; otherwise the main path runs. -/
def read_record_bytes (r : Reader) : Reader × ByteRecord × Except Error Bool :=
  if !r.state.has_headers && !r.state.first then
    match r.state.headers with
    | some h =>
      ({ r with state := { r.state with first := true } }, h.byte_record,
        Except.ok r.state.eof)
    | none => read_record_bytes_main r
  else read_record_bytes_main r

/-- The shared tail of the header accessors: read the cached header out
of the state.  The `none` branch is unreachable at its call sites (the
cache has just been checked or populated) and mirrors the source's
`unwrap`. -/
def headersResult (r : Reader) : Reader × Except Error StringRecord :=
  match r.state.headers with
  | some h =>
    match h.string_record with
    | Except.ok rec => (r, Except.ok rec)
    | Except.error err => (r, Except.error (Error.utf8 h.pos err))
  | none => (r, Except.error Error.seek)

/-- `Reader::headers`: the text header accessor; forces a read of the
first row when no header is cached, and fails with the seek error when
the reader was seeked before headers were ever captured. -/
def headers (r : Reader) : Reader × Except Error StringRecord :=
  match r.state.headers with
  | none =>
    if r.state.seeked then (r, Except.error Error.seek)
    else
      let pos := r.state.cur_pos
      let step := read_record_bytes_impl r
      match step.2.2 with
      | Except.error e => (step.1, Except.error e)
      | Except.ok _ =>
        headersResult (set_headers_pos step.1 (Sum.inr step.2.1) (some pos))
  | some _ => headersResult r

/-- The shared tail of `byte_headers`: read the cached raw header out of
the state.  The `none` branch is unreachable at its call sites and
mirrors the source's `unwrap`. -/
def byteHeadersResult (r : Reader) : Reader × Except Error ByteRecord :=
  match r.state.headers with
  | some h => (r, Except.ok h.byte_record)
  | none => (r, Except.error Error.seek)

/-- `Reader::byte_headers`: the raw header accessor; forces a read of the
first row when no header is cached, and fails with the seek error when
the reader was seeked before headers were ever captured. -/
def byte_headers (r : Reader) : Reader × Except Error ByteRecord :=
  match r.state.headers with
  | none =>
    if r.state.seeked then (r, Except.error Error.seek)
    else
      let pos := r.state.cur_pos
      let step := read_record_bytes_impl r
      match step.2.2 with
      | Except.error e => (step.1, Except.error e)
      | Except.ok _ =>
        byteHeadersResult (set_headers_pos step.1 (Sum.inr step.2.1) (some pos))
  | some _ => byteHeadersResult r

/-- `Reader::seek_raw`: reposition the byte source, reset the tokenizer
and re-prime its line counter, set both positions to `pos`, clear the
`eof` flag and mark the reader as seeked. -/
def seek_raw (r : Reader) (seek_from : Nat) (pos : Position) :
    Reader × Except Error Unit :=
  ({ r with
      rdrPos := seek_from
      coreLine := pos.line
      state := { r.state with
        seeked := true, prev_pos := pos, cur_pos := pos, eof := false } },
    Except.ok ())

/-- `Reader::seek`: no-op when the target byte offset equals the current
one, otherwise an absolute raw seek. -/
def seek (r : Reader) (pos : Position) : Reader × Except Error Unit :=
  if pos.byte = r.state.cur_pos.byte then (r, Except.ok ())
  else seek_raw r pos.byte pos

/-! ### Derived notions used by the statements -/

/-- The physical records of a byte stream, as produced by repeatedly
running the modelled tokenizer (fuelled; each step consumes at least one
byte, so `length + 1` fuel always suffices). -/
def tokRecordsFuel : Nat → List Nat → List ByteRecord
  | 0, _ => []
  | fuel + 1, bs =>
    match tokenizeRecord bs with
    | none => []
    | some (f, nin, _) => f :: tokRecordsFuel fuel (bs.drop nin)

/-- The physical records of a byte stream. -/
def tokRecords (bs : List Nat) : List ByteRecord :=
  tokRecordsFuel (bs.length + 1) bs

/-- The reader after `k` calls to `read_record_bytes`. -/
def afterReads (r : Reader) : Nat → Reader
  | 0 => r
  | k + 1 => afterReads (read_record_bytes r).1 k

/-- The reader component of a read result. -/
def rdrOf (x : Reader × ByteRecord × Except Error Bool) : Reader := x.1

/-- The record buffer of a read result. -/
def recOf (x : Reader × ByteRecord × Except Error Bool) : ByteRecord := x.2.1

/-- The returned `Result<bool>` of a read result. -/
def resOf (x : Reader × ByteRecord × Except Error Bool) : Except Error Bool := x.2.2

/-! ### Supporting lemmas about `add_record` -/

/-- `add_record` touches only the record counter, `prev_pos` and
`first_field_count`: all other state components are preserved, and the
record counter advances by exactly one. -/
theorem add_record_preserves (st : ReaderState) (n : Nat) :
    (add_record st n).1.headers = st.headers ∧
    (add_record st n).1.has_headers = st.has_headers ∧
    (add_record st n).1.flexible = st.flexible ∧
    (add_record st n).1.seeked = st.seeked ∧
    (add_record st n).1.first = st.first ∧
    (add_record st n).1.eof = st.eof ∧
    (add_record st n).1.cur_pos.byte = st.cur_pos.byte ∧
    (add_record st n).1.cur_pos.line = st.cur_pos.line ∧
    (add_record st n).1.cur_pos.record = st.cur_pos.record + 1 := by
  unfold add_record
  cases hfl : st.flexible <;> cases hffc : st.first_field_count <;>
    simp [hfl, hffc] <;> split <;> simp

/-- In flexible mode `add_record` never fails and leaves the expected
field count untouched. -/
theorem add_record_flex (st : ReaderState) (n : Nat) (hfl : st.flexible = true) :
    add_record st n =
      ({ st with
          cur_pos := { st.cur_pos with record := st.cur_pos.record + 1 },
          prev_pos := { st.cur_pos with record := st.cur_pos.record + 1 } }, none) := by
  unfold add_record
  simp [hfl]

/-- In strict mode the first completed record establishes the expected
field count. -/
theorem add_record_first_count (st : ReaderState) (n : Nat)
    (hfl : st.flexible = false) (hffc : st.first_field_count = none) :
    add_record st n =
      ({ st with
          cur_pos := { st.cur_pos with record := st.cur_pos.record + 1 },
          prev_pos := { st.cur_pos with record := st.cur_pos.record + 1 },
          first_field_count := some n }, none) := by
  unfold add_record
  simp [hfl, hffc]

/-- In strict mode a record matching the established count passes. -/
theorem add_record_pass (st : ReaderState) (n e : Nat)
    (hfl : st.flexible = false) (hffc : st.first_field_count = some e)
    (heq : n = e) :
    add_record st n =
      ({ st with
          cur_pos := { st.cur_pos with record := st.cur_pos.record + 1 },
          prev_pos := { st.cur_pos with record := st.cur_pos.record + 1 } }, none) := by
  unfold add_record
  simp [hfl, hffc, heq]

/-- In strict mode a record with a different count fails: the error
carries the expected count, `prev_pos`, and the observed count; the
record counter still advances but `prev_pos` is not updated. -/
theorem add_record_err (st : ReaderState) (n e : Nat)
    (hfl : st.flexible = false) (hffc : st.first_field_count = some e)
    (hne : n ≠ e) :
    add_record st n =
      ({ st with cur_pos := { st.cur_pos with record := st.cur_pos.record + 1 } },
        some (Error.unequalLengths e st.prev_pos n)) := by
  unfold add_record
  simp [hfl, hffc, hne]

/-- An already-established expected field count is never changed by
`add_record` (set-once). -/
theorem add_record_ffc_some (st : ReaderState) (n e : Nat)
    (hffc : st.first_field_count = some e) :
    (add_record st n).1.first_field_count = some e := by
  unfold add_record
  cases hfl : st.flexible <;> simp [hfl, hffc] <;> split <;> simp

/-- `add_record` succeeds exactly when the mode is flexible, no expected
count is established yet, or the count matches. -/
theorem add_record_ok_iff (st : ReaderState) (n : Nat) :
    (add_record st n).2 = none ↔
      (st.flexible = true ∨ st.first_field_count = none ∨
        st.first_field_count = some n) := by
  unfold add_record
  cases hfl : st.flexible <;> cases hffc : st.first_field_count <;>
    simp [hfl, hffc] <;> split <;> simp_all <;> omega

/-! ### Supporting lemmas about `read_record_bytes_impl` -/

/-- With the end-of-stream flag already set, the read loop is a no-op
returning a cleared record. -/
theorem impl_at_eof (r : Reader) (he : r.state.eof = true) :
    read_record_bytes_impl r = (r, [], Except.ok true) := by
  unfold read_record_bytes_impl
  simp [he]

/-- Reaching end of input sets the end-of-stream flag and returns a
cleared record; nothing else changes. -/
theorem impl_end (r : Reader) (he : r.state.eof = false)
    (ht : tokenizeRecord (r.data.drop r.rdrPos) = none) :
    read_record_bytes_impl r =
      ({ r with state := { r.state with eof := true } }, [], Except.ok true) := by
  unfold read_record_bytes_impl
  simp [he, ht]

/-- The reader produced by one completed-record step of the read loop:
source offset and byte position advance by the bytes consumed, the line
position follows the tokenizer line counter, and the state goes through
`add_record`. -/
def stepState (r : Reader) (nin nl : Nat) : ReaderState :=
  { r.state with
      cur_pos := { r.state.cur_pos with
        byte := r.state.cur_pos.byte + nin, line := r.coreLine + nl } }

/-- On a completed record the read loop advances positions, runs the
record through `add_record`, and returns the parsed fields (also when
`add_record` reports a length mismatch: the state mutations persist and
the fields are in the output buffer). -/
theorem impl_rec (r : Reader) (f : ByteRecord) (nin nl : Nat)
    (he : r.state.eof = false)
    (ht : tokenizeRecord (r.data.drop r.rdrPos) = some (f, nin, nl)) :
    read_record_bytes_impl r =
      ({ r with
          rdrPos := r.rdrPos + nin
          coreLine := r.coreLine + nl
          state := (add_record (stepState r nin nl) f.length).1 },
        f,
        match (add_record (stepState r nin nl) f.length).2 with
        | none => Except.ok false
        | some e => Except.error e) := by
  unfold read_record_bytes_impl stepState
  simp only [he, Bool.false_eq_true, if_false, ht]
  split <;> rename_i heq <;> simp [heq]

/-- The read loop never touches `first`, `headers`, `seeked`,
`has_headers`, `flexible` or the underlying data. -/
theorem impl_preserves (r : Reader) :
    (read_record_bytes_impl r).1.state.first = r.state.first ∧
    (read_record_bytes_impl r).1.state.headers = r.state.headers ∧
    (read_record_bytes_impl r).1.state.seeked = r.state.seeked ∧
    (read_record_bytes_impl r).1.state.has_headers = r.state.has_headers ∧
    (read_record_bytes_impl r).1.state.flexible = r.state.flexible ∧
    (read_record_bytes_impl r).1.data = r.data := by
  cases he : r.state.eof
  · cases ht : tokenizeRecord (r.data.drop r.rdrPos)
    · rw [impl_end r he ht]
      simp
    · rename_i v
      obtain ⟨f, nin, nl⟩ := v
      rw [impl_rec r f nin nl he ht]
      have h := add_record_preserves (stepState r nin nl) f.length
      simp only [stepState] at h ⊢
      simp [h.1, h.2.1, h.2.2.1, h.2.2.2.1, h.2.2.2.2.1]
  · rw [impl_at_eof r he]
    simp

/-- A successful `Ok(true)` from the read loop means the end-of-stream
flag is set on the resulting reader. -/
theorem impl_ok_true_eof (r r1 : Reader) (rec : ByteRecord)
    (h : read_record_bytes_impl r = (r1, rec, Except.ok true)) :
    r1.state.eof = true := by
  cases he : r.state.eof
  · cases ht : tokenizeRecord (r.data.drop r.rdrPos)
    · rw [impl_end r he ht] at h
      simp [Prod.ext_iff] at h
      rw [← h.1]
    · rename_i v
      obtain ⟨f, nin, nl⟩ := v
      rw [impl_rec r f nin nl he ht] at h
      cases hres : (add_record (stepState r nin nl) f.length).2 <;>
        rw [hres] at h <;> simp [Prod.ext_iff] at h
  · rw [impl_at_eof r he] at h
    simp [Prod.ext_iff] at h
    rw [← h.1, he]

/-! ### Supporting lemmas about `read_record_bytes` -/

/-- Once the first record has been delivered, the public read is the main
path: the deferred-header replay branch is gated on `first` being
unset. -/
theorem read_not_first (r : Reader) (hf : r.state.first = true) :
    read_record_bytes r = read_record_bytes_main r := by
  unfold read_record_bytes
  simp [hf]

/-- With header suppression enabled, the public read is the main path:
the deferred-header replay branch is gated on `has_headers` being
false. -/
theorem read_suppressed (r : Reader) (hh : r.state.has_headers = true) :
    read_record_bytes r = read_record_bytes_main r := by
  unfold read_record_bytes
  simp [hh]

/-! ### Tokenizer-model facts -/

/-- One tokenized line consumes at least one byte on nonempty input and
never more than the input length. -/
theorem tokenizeLine_consumed (bs : List Nat) :
    (tokenizeLine bs).2.1 ≤ bs.length ∧
      (bs ≠ [] → 1 ≤ (tokenizeLine bs).2.1) := by
  induction bs with
  | nil => simp [tokenizeLine]
  | cons b rest ih =>
    unfold tokenizeLine
    by_cases hb : b = 10
    · simp [hb]
    · simp [hb]
      omega

/-- The tokenizer returns `none` exactly at end of input. -/
theorem tokenizeRecord_none_iff (bs : List Nat) :
    tokenizeRecord bs = none ↔ bs = [] := by
  cases bs with
  | nil => simp [tokenizeRecord]
  | cons b rest => simp [tokenizeRecord]

/-- A tokenized record consumes between one byte and the whole input. -/
theorem tokenizeRecord_consumed (bs : List Nat) (f : ByteRecord) (nin nl : Nat)
    (h : tokenizeRecord bs = some (f, nin, nl)) :
    1 ≤ nin ∧ nin ≤ bs.length := by
  cases bs with
  | nil => simp [tokenizeRecord] at h
  | cons b rest =>
    have hc := tokenizeLine_consumed (b :: rest)
    simp only [tokenizeRecord, Option.some.injEq] at h
    have h2 : (tokenizeLine (b :: rest)).2.1 = nin := by
      have := congrArg (fun x => x.2.1) h
      simpa using this
    simp at hc
    simp only [List.length_cons]
    omega

/-- Fuel irrelevance for the physical-record list: any fuel larger than
the input length produces the same list. -/
theorem tokRecordsFuel_congr (fuel1 : Nat) : ∀ (fuel2 : Nat) (bs : List Nat),
    bs.length < fuel1 → bs.length < fuel2 →
    tokRecordsFuel fuel1 bs = tokRecordsFuel fuel2 bs := by
  induction fuel1 with
  | zero => intro fuel2 bs h1; omega
  | succ n1 ih =>
    intro fuel2 bs h1 h2
    cases fuel2 with
    | zero => omega
    | succ n2 =>
      unfold tokRecordsFuel
      cases ht : tokenizeRecord bs with
      | none => rfl
      | some v =>
        obtain ⟨f, nin, nl⟩ := v
        have hb := tokenizeRecord_consumed bs f nin nl ht
        have hlen : (bs.drop nin).length < n1 := by
          simp
          omega
        have hlen2 : (bs.drop nin).length < n2 := by
          simp
          omega
        dsimp only
        rw [ih n2 (bs.drop nin) hlen hlen2]

/-- One-step unfolding of the fuelled physical-record list. -/
theorem tokRecordsFuel_succ (fuel : Nat) (bs : List Nat) :
    tokRecordsFuel (fuel + 1) bs =
      match tokenizeRecord bs with
      | none => []
      | some (f, nin, _) => f :: tokRecordsFuel fuel (bs.drop nin) := rfl

/-- Unfolding: a tokenized record is the head of the physical-record
list, and the tail is the physical-record list of what remains. -/
theorem tokRecords_cons (bs : List Nat) (f : ByteRecord) (nin nl : Nat)
    (h : tokenizeRecord bs = some (f, nin, nl)) :
    tokRecords bs = f :: tokRecords (bs.drop nin) := by
  have hb := tokenizeRecord_consumed bs f nin nl h
  have hlen : (bs.drop nin).length < bs.length := by
    simp
    omega
  unfold tokRecords
  rw [tokRecordsFuel_succ, h]
  dsimp only
  rw [tokRecordsFuel_congr bs.length ((bs.drop nin).length + 1) (bs.drop nin)
    hlen (Nat.lt_succ_self _)]

/-- The physical-record list is empty exactly on empty input. -/
theorem tokRecords_nil (bs : List Nat) (h : tokenizeRecord bs = none) :
    tokRecords bs = [] := by
  unfold tokRecords tokRecordsFuel
  rw [h]

/-- Inversion: a nonempty physical-record list comes from a successful
tokenizer step whose record is the head. -/
theorem tokRecords_cons_inv (bs : List Nat) (f : ByteRecord)
    (rest : List ByteRecord) (h : tokRecords bs = f :: rest) :
    ∃ nin nl, tokenizeRecord bs = some (f, nin, nl) ∧
      tokRecords (bs.drop nin) = rest := by
  cases ht : tokenizeRecord bs with
  | none => rw [tokRecords_nil bs ht] at h; cases h
  | some v =>
    obtain ⟨f2, nin, nl⟩ := v
    rw [tokRecords_cons bs f2 nin nl ht] at h
    injection h with h1 h2
    subst h1
    exact ⟨nin, nl, rfl, h2⟩

/-! ### State-shape lemmas -/

/-- Setting the `first` flag on a state where it already holds changes
nothing. -/
theorem state_set_first (st : ReaderState) (h : st.first = true) :
    { st with first := true } = st := by
  cases st
  simp_all

/-- Caching a raw record stores exactly its bytes together with its
decoded form; nothing else in the reader changes. -/
theorem set_headers_pos_inr (r : Reader) (bytes : ByteRecord)
    (pos : Option Position) :
    set_headers_pos r (Sum.inr bytes) pos =
      { r with state := { r.state with
          headers := some (Headers.mk pos bytes (from_byte_record bytes)) } } := by
  unfold set_headers_pos
  cases hfb : from_byte_record bytes <;> simp [hfb]

/-- Projection form of `impl_ok_true_eof`. -/
theorem impl_res_true_eof (r : Reader)
    (hres : (read_record_bytes_impl r).2.2 = Except.ok true) :
    (read_record_bytes_impl r).1.state.eof = true := by
  apply impl_ok_true_eof r (read_record_bytes_impl r).1 (read_record_bytes_impl r).2.1
  rw [← hres]

/-- The reader holding a freshly cached first record: the result of the
inner read with `first` set and the record cached as headers with the
pre-read position. -/
def cacheReader (r : Reader) : Reader :=
  set_headers_pos
    { (read_record_bytes_impl r).1 with
        state := { (read_record_bytes_impl r).1.state with first := true } }
    (Sum.inr (read_record_bytes_impl r).2.1) (some r.state.cur_pos)

/-- Explicit form of `cacheReader`. -/
theorem cacheReader_eq (r : Reader) :
    cacheReader r =
      { (read_record_bytes_impl r).1 with
          state := { (read_record_bytes_impl r).1.state with
            first := true
            headers := some (Headers.mk (some r.state.cur_pos)
              (read_record_bytes_impl r).2.1
              (from_byte_record (read_record_bytes_impl r).2.1)) } } := by
  unfold cacheReader
  rw [set_headers_pos_inr]

/-- The `first` flag, header cache, end-of-stream flag and position data
of the caching reader. -/
theorem cacheReader_fields (r : Reader) :
    (cacheReader r).state.first = true ∧
    (cacheReader r).state.headers = some (Headers.mk (some r.state.cur_pos)
      (read_record_bytes_impl r).2.1
      (from_byte_record (read_record_bytes_impl r).2.1)) ∧
    (cacheReader r).state.eof = (read_record_bytes_impl r).1.state.eof ∧
    (cacheReader r).state.has_headers =
      (read_record_bytes_impl r).1.state.has_headers ∧
    (cacheReader r).state.seeked = (read_record_bytes_impl r).1.state.seeked ∧
    (cacheReader r).data = (read_record_bytes_impl r).1.data ∧
    (cacheReader r).rdrPos = (read_record_bytes_impl r).1.rdrPos ∧
    (cacheReader r).coreLine = (read_record_bytes_impl r).1.coreLine ∧
    (cacheReader r).state.flexible = (read_record_bytes_impl r).1.state.flexible ∧
    (cacheReader r).state.first_field_count =
      (read_record_bytes_impl r).1.state.first_field_count ∧
    (cacheReader r).state.cur_pos = (read_record_bytes_impl r).1.state.cur_pos := by
  rw [cacheReader_eq]
  exact ⟨rfl, rfl, rfl, rfl, rfl, rfl, rfl, rfl, rfl, rfl, rfl⟩

/-- The main read path when the inner read fails: the error and the
mutated reader propagate unchanged. -/
theorem main_eq_error (r : Reader) (e : Error)
    (hres : (read_record_bytes_impl r).2.2 = Except.error e) :
    read_record_bytes_main r =
      ((read_record_bytes_impl r).1, (read_record_bytes_impl r).2.1,
        Except.error e) := by
  unfold read_record_bytes_main
  simp only [hres]

/-- The main read path when no header caching applies (already seeked, or
a header is already cached): the inner read result with `first` set. -/
theorem main_eq_nocache (r : Reader) (eof : Bool)
    (hres : (read_record_bytes_impl r).2.2 = Except.ok eof)
    (hc : (!(read_record_bytes_impl r).1.state.seeked &&
      (read_record_bytes_impl r).1.state.headers.isNone) = false) :
    read_record_bytes_main r =
      ({ (read_record_bytes_impl r).1 with
          state := { (read_record_bytes_impl r).1.state with first := true } },
        (read_record_bytes_impl r).2.1, Except.ok eof) := by
  unfold read_record_bytes_main
  simp only [hres, hc, Bool.false_eq_true, if_false]

/-- The main read path on the first physical record of a non-seeked
stream with headers not suppressed: the record is cached and returned. -/
theorem main_eq_cache_visible (r : Reader) (eof : Bool)
    (hres : (read_record_bytes_impl r).2.2 = Except.ok eof)
    (hc : (!(read_record_bytes_impl r).1.state.seeked &&
      (read_record_bytes_impl r).1.state.headers.isNone) = true)
    (hhh : r.state.has_headers = false) :
    read_record_bytes_main r =
      (cacheReader r, (read_record_bytes_impl r).2.1, Except.ok eof) := by
  have hpres := impl_preserves r
  unfold read_record_bytes_main
  simp only [hres, hc, if_true]
  rw [if_neg]
  · rw [cacheReader_eq, set_headers_pos_inr]
  · rw [set_headers_pos_inr]
    dsimp only
    rw [hpres.2.2.2.1, hhh]
    simp

/-- The main read path on the first physical record of a non-seeked
stream with headers suppressed: the record is cached and a second inner
read produces the caller-visible result. -/
theorem main_eq_cache_suppressed (r : Reader) (eof : Bool)
    (hres : (read_record_bytes_impl r).2.2 = Except.ok eof)
    (hc : (!(read_record_bytes_impl r).1.state.seeked &&
      (read_record_bytes_impl r).1.state.headers.isNone) = true)
    (hhh : r.state.has_headers = true) :
    read_record_bytes_main r = read_record_bytes_impl (cacheReader r) := by
  have hpres := impl_preserves r
  unfold read_record_bytes_main
  simp only [hres, hc, if_true]
  rw [if_pos]
  · rfl
  · rw [set_headers_pos_inr]
    dsimp only
    rw [hpres.2.2.2.1, hhh]

/-- The deferred-header replay step: with headers not suppressed, no
record delivered yet, and a cached header, the public read returns a copy
of the cached header and only sets the `first` flag — the tokenizer is
not invoked and no input is consumed. -/
theorem read_replay (r : Reader) (hd : Headers)
    (hh : r.state.has_headers = false) (hf : r.state.first = false)
    (hc : r.state.headers = some hd) :
    read_record_bytes r =
      ({ r with state := { r.state with first := true } }, hd.byte_record,
        Except.ok r.state.eof) := by
  unfold read_record_bytes
  simp [hh, hf, hc]

/-- The public read is the main path whenever no header is cached. -/
theorem read_eq_main_of_nohdr (r : Reader) (hc : r.state.headers = none) :
    read_record_bytes r = read_record_bytes_main r := by
  unfold read_record_bytes
  rw [hc]
  split <;> rfl

/-- Any successful public read leaves the reader with `first` set, with
the end-of-stream flag set whenever `true` was returned, and (unless it
was seeked) with a cached header. -/
theorem read_ok_state (r r1 : Reader) (rec : ByteRecord) (b : Bool)
    (h : read_record_bytes r = (r1, rec, Except.ok b)) :
    r1.state.first = true ∧ (b = true → r1.state.eof = true) ∧
    (r1.state.seeked = false → r1.state.headers.isSome = true) := by
  have hmain : read_record_bytes_main r = (r1, rec, Except.ok b) →
      r1.state.first = true ∧ (b = true → r1.state.eof = true) ∧
      (r1.state.seeked = false → r1.state.headers.isSome = true) := by
    intro h2
    cases hres : (read_record_bytes_impl r).2.2 with
    | error e =>
      rw [main_eq_error r e hres] at h2
      have := congrArg (fun x => x.2.2) h2
      simp at this
    | ok eof =>
      by_cases hc : (!(read_record_bytes_impl r).1.state.seeked &&
          (read_record_bytes_impl r).1.state.headers.isNone) = true
      · by_cases hhh : r.state.has_headers = true
        · rw [main_eq_cache_suppressed r eof hres hc hhh] at h2
          have ha : (read_record_bytes_impl (cacheReader r)).1 = r1 :=
            congrArg (fun x => x.1) h2
          have hb : (read_record_bytes_impl (cacheReader r)).2.2 =
              Except.ok b := congrArg (fun x => x.2.2) h2
          have hpres2 := impl_preserves (cacheReader r)
          have hcf := cacheReader_fields r
          refine ⟨?_, ?_, ?_⟩
          · rw [← ha, hpres2.1, hcf.1]
          · intro htrue
            rw [← ha]
            apply impl_res_true_eof
            rw [hb, htrue]
          · intro hs
            rw [← ha, hpres2.2.1, hcf.2.1]
            rfl
        · have hhh2 : r.state.has_headers = false := by simpa using hhh
          rw [main_eq_cache_visible r eof hres hc hhh2] at h2
          have ha : cacheReader r = r1 := congrArg (fun x => x.1) h2
          have hb : (Except.ok eof : Except Error Bool) = Except.ok b :=
            congrArg (fun x => x.2.2) h2
          have heq : eof = b := by injection hb
          have hcf := cacheReader_fields r
          refine ⟨?_, ?_, ?_⟩
          · rw [← ha, hcf.1]
          · intro htrue
            rw [← ha, hcf.2.2.1]
            apply impl_res_true_eof
            rw [hres, heq, htrue]
          · intro hs
            rw [← ha, hcf.2.1]
            rfl
      · have hc2 : (!(read_record_bytes_impl r).1.state.seeked &&
            (read_record_bytes_impl r).1.state.headers.isNone) = false := by
          cases hval : (!(read_record_bytes_impl r).1.state.seeked &&
              (read_record_bytes_impl r).1.state.headers.isNone) with
          | false => rfl
          | true => exact absurd hval hc
        rw [main_eq_nocache r eof hres hc2] at h2
        have ha : ({ (read_record_bytes_impl r).1 with
            state := { (read_record_bytes_impl r).1.state with
              first := true } } : Reader) = r1 :=
          congrArg (fun x => x.1) h2
        have hb : (Except.ok eof : Except Error Bool) = Except.ok b :=
          congrArg (fun x => x.2.2) h2
        have heq : eof = b := by injection hb
        refine ⟨?_, ?_, ?_⟩
        · rw [← ha]
        · intro htrue
          rw [← ha]
          show (read_record_bytes_impl r).1.state.eof = true
          apply impl_res_true_eof
          rw [hres, heq, htrue]
        · intro hs
          rw [← ha] at hs ⊢
          show (read_record_bytes_impl r).1.state.headers.isSome = true
          have hs2 : (read_record_bytes_impl r).1.state.seeked = false := hs
          rw [hs2] at hc2
          simp at hc2
          cases hcase : (read_record_bytes_impl r).1.state.headers with
          | none => rw [hcase] at hc2; simp at hc2
          | some hd2 => rfl
  by_cases hf : r.state.first = true
  · exact hmain (by rw [← read_not_first r hf]; exact h)
  · by_cases hhh : r.state.has_headers = true
    · exact hmain (by rw [← read_suppressed r hhh]; exact h)
    · have hhh2 : r.state.has_headers = false := by simpa using hhh
      have hf2 : r.state.first = false := by simpa using hf
      cases hhdr : r.state.headers with
      | none => exact hmain (by rw [← read_eq_main_of_nohdr r hhdr]; exact h)
      | some hd =>
        rw [read_replay r hd hhh2 hf2 hhdr] at h
        have ha : ({ r with state := { r.state with first := true } } : Reader)
            = r1 := congrArg (fun x => x.1) h
        have hb : (Except.ok r.state.eof : Except Error Bool) = Except.ok b :=
          congrArg (fun x => x.2.2) h
        have heq : r.state.eof = b := by injection hb
        refine ⟨?_, ?_, ?_⟩
        · rw [← ha]
        · intro htrue
          rw [← ha]
          show r.state.eof = true
          rw [heq, htrue]
        · intro hs
          rw [← ha]
          show r.state.headers.isSome = true
          rw [hhdr]
          rfl

/-- Caching caller-supplied text headers stores their (lossless) byte
form and the text form; nothing else in the reader changes. -/
theorem set_headers_pos_inl (r : Reader) (strings : StringRecord)
    (pos : Option Position) :
    set_headers_pos r (Sum.inl strings) pos =
      { r with state := { r.state with
          headers := some (Headers.mk pos strings (Except.ok strings)) } } := by
  unfold set_headers_pos
  rfl

/-! ### Claim C8 -/

/-- C8: for every position whose byte offset equals the current
position's byte offset, `seek` returns success and changes nothing — the
whole reader (tokenizer state, header cache, positions, flags, source
offset) is returned unchanged and no underlying seek happens; in
particular the header accessors behave exactly as without the seek, so
seeking to the start position before any read leaves them able to
succeed. -/
theorem C8_seek_same_byte_noop (r : Reader) (pos : Position)
    (h : pos.byte = r.state.cur_pos.byte) :
    seek r pos = (r, Except.ok ()) ∧
    headers (seek r pos).1 = headers r ∧
    byte_headers (seek r pos).1 = byte_headers r := by
  have h1 : seek r pos = (r, Except.ok ()) := by
    unfold seek
    rw [if_pos h]
  exact ⟨h1, by rw [h1], by rw [h1]⟩

/-- C8 witness: seeking a fresh reader to the start position is a no-op
and its header accessors still succeed afterwards. -/
theorem C8_seek_same_byte_noop_witness :
    (seek (mkReader [97, 10, 98] (Config.mk true false)) Position.start =
      (mkReader [97, 10, 98] (Config.mk true false), Except.ok ()) ∧
    headers (seek (mkReader [97, 10, 98] (Config.mk true false))
        Position.start).1 =
      headers (mkReader [97, 10, 98] (Config.mk true false)) ∧
    byte_headers (seek (mkReader [97, 10, 98] (Config.mk true false))
        Position.start).1 =
      byte_headers (mkReader [97, 10, 98] (Config.mk true false))) ∧
    (headers (seek (mkReader [97, 10, 98] (Config.mk true false))
        Position.start).1).2 = Except.ok [[97]] := by
  constructor
  · exact C8_seek_same_byte_noop (mkReader [97, 10, 98] (Config.mk true false))
      Position.start rfl
  · decide

/-! ### Claim C3 -/

/-- The reader of the C3 counterexample: header suppression enabled, the
header row cached by a prior `byte_headers` call. -/
def rC3 : Reader :=
  (byte_headers (mkReader [104, 10, 120, 10, 121] (Config.mk true false))).1

/-- The header cache of the C3 counterexample reader. -/
def hdC3 : Headers :=
  Headers.mk (some Position.start) [[104]] (Except.ok [[104]])

/-- C3 (counterexample): with header suppression enabled (`has_headers`
true), before the first raw read, and a header already cached, the read
does NOT return the cached header and DOES consume from the source — the
replay branch is gated on `has_headers` being false, not true. -/
theorem C3_cex_replay_needs_suppression_off :
    rC3.state.has_headers = true ∧
    rC3.state.first = false ∧
    rC3.state.headers = some hdC3 ∧
    recOf (read_record_bytes rC3) = [[120]] ∧
    ([[120]] : ByteRecord) ≠ hdC3.byte_record ∧
    rC3.rdrPos = 2 ∧
    (read_record_bytes rC3).1.rdrPos = 4 := by
  decide

/-- C3 (amended): if header suppression is DISABLED (`has_headers`
false), the call is before any record has been delivered, and a header
record is cached, then `read_record_bytes` returns a copy of the cached
header bytes and only sets the `first` flag: the tokenizer is not
invoked and nothing is consumed from the source. -/
theorem C3_header_replay (r : Reader) (hd : Headers)
    (hh : r.state.has_headers = false) (hf : r.state.first = false)
    (hc : r.state.headers = some hd) :
    read_record_bytes r =
      ({ r with state := { r.state with first := true } }, hd.byte_record,
        Except.ok r.state.eof) :=
  read_replay r hd hh hf hc

/-- C3 witness: a concrete replay on a reader with suppression disabled
and a cached header. -/
theorem C3_header_replay_witness :
    read_record_bytes
        (set_byte_headers (mkReader [97] (Config.mk false false)) [[104]]) =
      ({ set_byte_headers (mkReader [97] (Config.mk false false)) [[104]] with
          state := { (set_byte_headers (mkReader [97] (Config.mk false false))
            [[104]]).state with first := true } },
        [[104]], Except.ok false) := by
  have h := C3_header_replay
    (set_byte_headers (mkReader [97] (Config.mk false false)) [[104]])
    (Headers.mk none [[104]] (Except.ok [[104]])) rfl rfl (by decide)
  exact h

/-! ### Claim C6 -/

/-- C6 (counterexample): the reader below was seeked after its header —
a non-UTF-8 record — was captured, yet `headers` does not succeed: it
fails with the original decode error.  The claim's converse direction
("both accessors still succeed") is therefore false as stated. -/
def rC6 : Reader :=
  (seek (read_record_bytes
    (mkReader [255, 10, 120] (Config.mk false false))).1 Position.start).1

/-- C6 (counterexample): headers were captured before the seek, the
reader is seeked, `byte_headers` succeeds, but `headers` fails (with the
UTF-8 error of the captured header, not the seek error). -/
theorem C6_cex_headers_utf8_after_seek :
    rC6.state.seeked = true ∧
    rC6.state.headers =
      some (Headers.mk (some Position.start) [[255]]
        (Except.error (Utf8Error.mk 0 0))) ∧
    (byte_headers rC6).2 = Except.ok [[255]] ∧
    (headers rC6).2 =
      Except.error (Error.utf8 (some Position.start) (Utf8Error.mk 0 0)) := by
  decide

/-- C6 (amended): on a seeked reader, if no header was ever captured,
both header accessors fail with the seek error, returning the reader
unchanged (no source read); if a header was captured before the seek,
`byte_headers` still succeeds with the captured bytes and `headers`
never fails with the seek error — it returns the captured text form,
failing only with the original decode error when the captured header is
not valid text. -/
theorem C6_headers_after_seek (r : Reader) (hs : r.state.seeked = true) :
    (r.state.headers = none →
      headers r = (r, Except.error Error.seek) ∧
      byte_headers r = (r, Except.error Error.seek)) ∧
    (∀ hd, r.state.headers = some hd →
      byte_headers r = (r, Except.ok hd.byte_record) ∧
      (headers r).2 ≠ Except.error Error.seek ∧
      headers r = (r, match hd.string_record with
        | Except.ok s => Except.ok s
        | Except.error e => Except.error (Error.utf8 hd.pos e))) := by
  constructor
  · intro hnone
    constructor
    · unfold headers
      rw [hnone]
      simp [hs]
    · unfold byte_headers
      rw [hnone]
      simp [hs]
  · intro hd hsome
    have h1 : byte_headers r = (r, Except.ok hd.byte_record) := by
      unfold byte_headers byteHeadersResult
      simp [hsome]
    have h2 : headers r = (r, match hd.string_record with
        | Except.ok s => Except.ok s
        | Except.error e => Except.error (Error.utf8 hd.pos e)) := by
      unfold headers headersResult
      simp [hsome]
      cases hsr : hd.string_record <;> simp
    refine ⟨h1, ?_, h2⟩
    rw [h2]
    cases hsr : hd.string_record <;> simp [hsr]

/-- C6 witness: concrete seeked readers with and without a captured
header. -/
theorem C6_headers_after_seek_witness :
    (headers (seek (mkReader [97, 10, 98] (Config.mk true false))
        (Position.mk 2 2 1)).1 =
      ((seek (mkReader [97, 10, 98] (Config.mk true false))
        (Position.mk 2 2 1)).1, Except.error Error.seek)) ∧
    (byte_headers rC6).2 = Except.ok [[255]] := by
  constructor
  · exact ((C6_headers_after_seek
      (seek (mkReader [97, 10, 98] (Config.mk true false))
        (Position.mk 2 2 1)).1 (by decide)).1 (by decide)).1
  · exact congrArg (fun x => x.2)
      (((C6_headers_after_seek rC6 (by decide)).2
        (Headers.mk (some Position.start) [[255]]
          (Except.error (Utf8Error.mk 0 0))) (by decide)).1)

/-! ### Claim C9 -/

/-- C9: if the caller sets headers manually (via `set_headers` or
`set_byte_headers`) on a fresh reader with header suppression disabled,
the first `read_record_bytes` returns a copy of the manually-set header
bytes without touching the underlying source (only the `first` flag
changes), and the second call returns the actual first physical
record. -/
theorem C9_manual_headers_first_read (data : List Nat) (flex : Bool)
    (H : ByteRecord) (r1 : Reader) (f : ByteRecord) (rest : List ByteRecord)
    (hset : r1 = set_byte_headers (mkReader data (Config.mk false flex)) H ∨
      r1 = set_headers (mkReader data (Config.mk false flex)) H)
    (htr : tokRecords data = f :: rest) :
    read_record_bytes r1 =
      ({ r1 with state := { r1.state with first := true } }, H, Except.ok false)
    ∧ recOf (read_record_bytes
        ({ r1 with state := { r1.state with first := true } })) = f
    ∧ resOf (read_record_bytes
        ({ r1 with state := { r1.state with first := true } })) =
      Except.ok false := by
  obtain ⟨nin, nl, htok, hrest⟩ := tokRecords_cons_inv data f rest htr
  have key : ∀ (hd : Headers), hd.byte_record = H →
      r1 = { mkReader data (Config.mk false flex) with
        state := { (mkReader data (Config.mk false flex)).state with
          headers := some hd } } →
      read_record_bytes r1 =
        ({ r1 with state := { r1.state with first := true } }, H,
          Except.ok false)
      ∧ recOf (read_record_bytes
          ({ r1 with state := { r1.state with first := true } })) = f
      ∧ resOf (read_record_bytes
          ({ r1 with state := { r1.state with first := true } })) =
        Except.ok false := by
    intro hd hbyte hr1
    subst hr1
    have hrep := read_replay
      { mkReader data (Config.mk false flex) with
        state := { (mkReader data (Config.mk false flex)).state with
          headers := some hd } } hd rfl rfl rfl
    constructor
    · rw [hrep, hbyte]
      rfl
    · have hf2 : ({ { mkReader data (Config.mk false flex) with
          state := { (mkReader data (Config.mk false flex)).state with
            headers := some hd } } with
          state := { { mkReader data (Config.mk false flex) with
            state := { (mkReader data (Config.mk false flex)).state with
              headers := some hd } }.state with
            first := true } } : Reader) =
        { mkReader data (Config.mk false flex) with
          state := { (mkReader data (Config.mk false flex)).state with
            headers := some hd
            first := true } } := rfl
      rw [hf2]
      set r2 : Reader := { mkReader data (Config.mk false flex) with
        state := { (mkReader data (Config.mk false flex)).state with
          headers := some hd
          first := true } } with hr2
      have he2 : r2.state.eof = false := rfl
      have ht2 : tokenizeRecord (r2.data.drop r2.rdrPos) = some (f, nin, nl) := by
        show tokenizeRecord (data.drop 0) = some (f, nin, nl)
        rw [List.drop_zero]
        exact htok
      have himpl := impl_rec r2 f nin nl he2 ht2
      have hok : (add_record (stepState r2 nin nl) f.length).2 = none := by
        rw [add_record_ok_iff]
        right
        left
        rfl
      have hres2 : (read_record_bytes_impl r2).2.2 = Except.ok false := by
        rw [himpl, hok]
      have hcnd : (!(read_record_bytes_impl r2).1.state.seeked &&
          (read_record_bytes_impl r2).1.state.headers.isNone) = false := by
        have hp := impl_preserves r2
        rw [hp.2.1]
        show (_ && (Option.isNone (some hd))) = false
        simp
      rw [read_not_first r2 rfl, main_eq_nocache r2 false hres2 hcnd]
      unfold recOf resOf
      rw [himpl]
      exact ⟨rfl, rfl⟩
  cases hset with
  | inl hcase =>
    apply key (Headers.mk none H (from_byte_record H)) rfl
    rw [hcase]
    exact set_headers_pos_inr _ _ _
  | inr hcase =>
    apply key (Headers.mk none H (Except.ok H)) rfl
    rw [hcase]
    exact set_headers_pos_inl _ _ _

/-- C9 witness: manually-set byte headers on a fresh two-record stream
are replayed by the first read and the physical first record follows. -/
theorem C9_manual_headers_first_read_witness :
    (read_record_bytes (set_byte_headers
        (mkReader [120, 44, 121, 10, 122, 44, 119] (Config.mk false false))
        [[104, 49], [104, 50]]) =
      ({ set_byte_headers
          (mkReader [120, 44, 121, 10, 122, 44, 119] (Config.mk false false))
          [[104, 49], [104, 50]] with
        state := { (set_byte_headers
          (mkReader [120, 44, 121, 10, 122, 44, 119] (Config.mk false false))
          [[104, 49], [104, 50]]).state with first := true } },
        [[104, 49], [104, 50]], Except.ok false))
    ∧ recOf (read_record_bytes
        ({ set_byte_headers
            (mkReader [120, 44, 121, 10, 122, 44, 119] (Config.mk false false))
            [[104, 49], [104, 50]] with
          state := { (set_byte_headers
            (mkReader [120, 44, 121, 10, 122, 44, 119] (Config.mk false false))
            [[104, 49], [104, 50]]).state with first := true } })) =
      [[120], [121]]
    ∧ resOf (read_record_bytes
        ({ set_byte_headers
            (mkReader [120, 44, 121, 10, 122, 44, 119] (Config.mk false false))
            [[104, 49], [104, 50]] with
          state := { (set_byte_headers
            (mkReader [120, 44, 121, 10, 122, 44, 119] (Config.mk false false))
            [[104, 49], [104, 50]]).state with first := true } })) =
      Except.ok false :=
  C9_manual_headers_first_read [120, 44, 121, 10, 122, 44, 119] false
    [[104, 49], [104, 50]] _ [[120], [121]] [[[122], [119]]]
    (Or.inl rfl) (by decide)

/-! ### Claim C10 -/

/-- C10: reading past end-of-stream is idempotent.  Once a call to
`read_record_bytes` has returned `true`, every subsequent call returns
`true` with a cleared (zero-field) record and leaves the reader — its
positions, counters, source offset and all flags — entirely
unchanged. -/
theorem C10_read_past_eof_idempotent (r0 r1 : Reader) (rec : ByteRecord)
    (h : read_record_bytes r0 = (r1, rec, Except.ok true)) :
    ∀ k, afterReads r1 k = r1 ∧
      read_record_bytes (afterReads r1 k) = (r1, [], Except.ok true) := by
  obtain ⟨hf, heof, hhdr⟩ := read_ok_state r0 r1 rec true h
  have he : r1.state.eof = true := heof rfl
  have himpl := impl_at_eof r1 he
  have hc : (!(read_record_bytes_impl r1).1.state.seeked &&
      (read_record_bytes_impl r1).1.state.headers.isNone) = false := by
    rw [himpl]
    dsimp only
    cases hs : r1.state.seeked with
    | true => simp
    | false =>
      have h2 := hhdr hs
      cases hcase : r1.state.headers with
      | none => rw [hcase] at h2; simp at h2
      | some hd => simp
  have hres : (read_record_bytes_impl r1).2.2 = Except.ok true := by
    rw [himpl]
  have hstep : read_record_bytes r1 = (r1, [], Except.ok true) := by
    rw [read_not_first r1 hf, main_eq_nocache r1 true hres hc, himpl]
    dsimp only
    rw [state_set_first r1.state hf]
  intro k
  induction k with
  | zero => exact ⟨rfl, hstep⟩
  | succ n ih =>
    have h1 : afterReads r1 (n + 1) = r1 := by
      show afterReads (read_record_bytes r1).1 n = r1
      rw [hstep]
      exact ih.1
    exact ⟨h1, by rw [h1]; exact hstep⟩

/-- C10 witness: a reader on an empty stream returns end-of-stream on the
first read and every later read is an unchanged-state end-of-stream. -/
theorem C10_read_past_eof_idempotent_witness :
    afterReads (read_record_bytes (mkReader [] (Config.mk false false))).1 3 =
      (read_record_bytes (mkReader [] (Config.mk false false))).1 ∧
    read_record_bytes (afterReads
        (read_record_bytes (mkReader [] (Config.mk false false))).1 3) =
      ((read_record_bytes (mkReader [] (Config.mk false false))).1, [],
        Except.ok true) :=
  C10_read_past_eof_idempotent (mkReader [] (Config.mk false false))
    (read_record_bytes (mkReader [] (Config.mk false false))).1 []
    (by decide) 3

/-! ### The strict-mode mismatch step, shared by C1 and C7 -/

/-- A cached option is not `none` when it is some value. -/
theorem isNone_false_of_isSome (o : Option Headers) (h : o.isSome = true) :
    o.isNone = false := by
  cases o with
  | none => simp at h
  | some hd => rfl

/-- The reader after a strict-mode length-mismatch error: byte and line
positions advanced past the offending record, the record counter
incremented, the source offset advanced — but `prev_pos`,
`first_field_count`, the header cache and all flags untouched. -/
def errReader (r : Reader) (nin nl : Nat) : Reader :=
  { r with
      rdrPos := r.rdrPos + nin
      coreLine := r.coreLine + nl
      state := { r.state with
        cur_pos := Position.mk (r.state.cur_pos.byte + nin) (r.coreLine + nl)
          (r.state.cur_pos.record + 1) } }

/-- In strict mode with an established expected count, a completed record
of a different field count makes `read_record_bytes` fail with a
length-mismatch error carrying the expected count, `prev_pos`, and the
observed count, while positions and counters advance as for a parsed
record. -/
theorem mismatch_step (r : Reader) (f : ByteRecord) (nin nl e : Nat)
    (hf : r.state.first = true)
    (he : r.state.eof = false) (hflex : r.state.flexible = false)
    (hffc : r.state.first_field_count = some e)
    (ht : tokenizeRecord (r.data.drop r.rdrPos) = some (f, nin, nl))
    (hne : f.length ≠ e) :
    read_record_bytes r = (errReader r nin nl, f,
      Except.error (Error.unequalLengths e r.state.prev_pos f.length)) := by
  have hst0fl : (stepState r nin nl).flexible = false := hflex
  have hst0ffc : (stepState r nin nl).first_field_count = some e := hffc
  have herr := add_record_err (stepState r nin nl) f.length e hst0fl hst0ffc hne
  have himpl := impl_rec r f nin nl he ht
  rw [herr] at himpl
  have hres : (read_record_bytes_impl r).2.2 =
      Except.error (Error.unequalLengths e (stepState r nin nl).prev_pos
        f.length) := by
    rw [himpl]
  rw [read_not_first r hf, main_eq_error r _ hres, himpl]
  rfl

/-- A steady successful read: with the first record delivered, a header
cached, not at end of stream, and a field count admissible for
`add_record`, the public read returns the tokenized record and the
stepped inner reader. -/
theorem steady_read_ok (r : Reader) (f : ByteRecord) (nin nl : Nat)
    (hf : r.state.first = true)
    (hskip : r.state.seeked = true ∨ r.state.headers.isSome = true)
    (he : r.state.eof = false)
    (ht : tokenizeRecord (r.data.drop r.rdrPos) = some (f, nin, nl))
    (hok : r.state.flexible = true ∨ r.state.first_field_count = none ∨
      r.state.first_field_count = some f.length) :
    read_record_bytes r = ((read_record_bytes_impl r).1, f, Except.ok false) := by
  have himpl := impl_rec r f nin nl he ht
  have hok2 : (add_record (stepState r nin nl) f.length).2 = none := by
    rw [add_record_ok_iff]
    exact hok
  have hres : (read_record_bytes_impl r).2.2 = Except.ok false := by
    rw [himpl, hok2]
  have hp := impl_preserves r
  have hcnd : (!(read_record_bytes_impl r).1.state.seeked &&
      (read_record_bytes_impl r).1.state.headers.isNone) = false := by
    cases hskip with
    | inl hs => rw [hp.2.2.1, hs]; simp
    | inr hh => rw [hp.2.1, isNone_false_of_isSome _ hh]; simp
  have hfirst2 : (read_record_bytes_impl r).1.state.first = true := by
    rw [(impl_preserves r).1, hf]
  rw [read_not_first r hf, main_eq_nocache r false hres hcnd,
    state_set_first _ hfirst2]
  have hrec : (read_record_bytes_impl r).2.1 = f := by
    rw [himpl]
  rw [hrec]

/-- A steady end-of-stream read: with the first record delivered and no
header caching applicable, reaching end of input returns `true` with a
cleared record; only the `eof` flag changes. -/
theorem steady_read_end (r : Reader)
    (hf : r.state.first = true)
    (hskip : r.state.seeked = true ∨ r.state.headers.isSome = true)
    (he : r.state.eof = false)
    (ht : tokenizeRecord (r.data.drop r.rdrPos) = none) :
    read_record_bytes r =
      ({ r with state := { r.state with eof := true } }, [],
        Except.ok true) := by
  have himpl := impl_end r he ht
  have hres : (read_record_bytes_impl r).2.2 = Except.ok true := by
    rw [himpl]
  have hcnd : (!(read_record_bytes_impl r).1.state.seeked &&
      (read_record_bytes_impl r).1.state.headers.isNone) = false := by
    have hp := impl_preserves r
    cases hskip with
    | inl hs => rw [hp.2.2.1, hs]; simp
    | inr hh => rw [hp.2.1, isNone_false_of_isSome _ hh]; simp
  have hfirst2 : (read_record_bytes_impl r).1.state.first = true := by
    rw [(impl_preserves r).1, hf]
  rw [read_not_first r hf, main_eq_nocache r true hres hcnd,
    state_set_first _ hfirst2, himpl]

/-! ### Claim C1 -/

/-- C1 (counterexample): on `a\nb\nc,d` in strict mode the offending
record `c,d` starts at position `{byte 4, line 3, record 2}` — the value
`position()` reports just before it is read — while the record
immediately preceding it (`b`, the last successfully accepted one)
starts at `{byte 2, line 2, record 1}`.  The length-mismatch error
carries `{4, 3, 2}`: the start position of the offending record itself,
not the position of the preceding record as the claim states. -/
theorem C1_cex_mismatch_pos_is_offending_start :
    resOf (read_record_bytes (afterReads
        (mkReader [97, 10, 98, 10, 99, 44, 100] (Config.mk false false)) 2)) =
      Except.error (Error.unequalLengths 1 (Position.mk 4 3 2) 2) ∧
    position (afterReads
        (mkReader [97, 10, 98, 10, 99, 44, 100] (Config.mk false false)) 1) =
      Position.mk 2 2 1 ∧
    position (afterReads
        (mkReader [97, 10, 98, 10, 99, 44, 100] (Config.mk false false)) 2) =
      Position.mk 4 3 2 ∧
    Position.mk 4 3 2 ≠ Position.mk 2 2 1 := by
  decide

/-- C1 (amended): in strict mode, when a completed record's field count
differs from the established expected count, `read_record_bytes` fails
with a length-mismatch error carrying the expected count, the observed
count, and the parser position recorded after the last successfully
accepted record — which, between reads (`prev_pos = cur_pos`), equals
`position()` before the failing call, i.e. the START position of the
offending record itself (not the position of the record preceding
it). -/
theorem C1_mismatch_error_position (r : Reader) (f : ByteRecord)
    (nin nl e : Nat)
    (hf : r.state.first = true)
    (he : r.state.eof = false) (hflex : r.state.flexible = false)
    (hffc : r.state.first_field_count = some e)
    (ht : tokenizeRecord (r.data.drop r.rdrPos) = some (f, nin, nl))
    (hne : f.length ≠ e)
    (hprev : r.state.prev_pos = r.state.cur_pos) :
    read_record_bytes r = (errReader r nin nl, f,
      Except.error (Error.unequalLengths e (position r) f.length)) := by
  have h := mismatch_step r f nin nl e hf he hflex hffc ht hne
  rw [hprev] at h
  exact h

/-- C1 witness: the amended statement at the concrete counterexample
stream. -/
theorem C1_mismatch_error_position_witness :
    read_record_bytes (afterReads
        (mkReader [97, 10, 98, 10, 99, 44, 100] (Config.mk false false)) 2) =
      (errReader (afterReads
          (mkReader [97, 10, 98, 10, 99, 44, 100] (Config.mk false false)) 2)
        3 0,
        [[99], [100]],
        Except.error (Error.unequalLengths 1
          (position (afterReads
            (mkReader [97, 10, 98, 10, 99, 44, 100] (Config.mk false false)) 2))
          2)) :=
  C1_mismatch_error_position
    (afterReads (mkReader [97, 10, 98, 10, 99, 44, 100]
      (Config.mk false false)) 2)
    [[99], [100]] 3 0 1 (by decide) (by decide) (by decide)
    (by decide) (by decide) (by decide) (by decide)

/-! ### Claim C7 -/

/-- C7: after `read_record_bytes` returns a length-mismatch error the
stream is not corrupted: the source offset and the byte, line and record
counters advanced exactly as for a successfully parsed record (the
record counter incremented by one for the offending record), the
end-of-stream flag is still clear, and the next call returns the record
that physically follows the offending one (when its field count is
admissible). -/
theorem C7_mismatch_keeps_stream_usable (r : Reader) (f : ByteRecord)
    (nin nl e : Nat)
    (hf : r.state.first = true) (hh : r.state.headers.isSome = true)
    (he : r.state.eof = false) (hflex : r.state.flexible = false)
    (hffc : r.state.first_field_count = some e)
    (ht : tokenizeRecord (r.data.drop r.rdrPos) = some (f, nin, nl))
    (hne : f.length ≠ e) :
    read_record_bytes r = (errReader r nin nl, f,
      Except.error (Error.unequalLengths e r.state.prev_pos f.length)) ∧
    (errReader r nin nl).state.cur_pos.byte = r.state.cur_pos.byte + nin ∧
    (errReader r nin nl).state.cur_pos.line = r.coreLine + nl ∧
    (errReader r nin nl).state.cur_pos.record = r.state.cur_pos.record + 1 ∧
    (errReader r nin nl).rdrPos = r.rdrPos + nin ∧
    (errReader r nin nl).state.eof = false ∧
    (∀ f2 nin2 nl2,
      tokenizeRecord (r.data.drop (r.rdrPos + nin)) = some (f2, nin2, nl2) →
      f2.length = e →
      read_record_bytes (errReader r nin nl) =
        ((read_record_bytes_impl (errReader r nin nl)).1, f2,
          Except.ok false)) := by
  refine ⟨mismatch_step r f nin nl e hf he hflex hffc ht hne,
    rfl, rfl, rfl, rfl, he, ?_⟩
  intro f2 nin2 nl2 ht2 hlen2
  apply steady_read_ok (errReader r nin nl) f2 nin2 nl2
  · exact hf
  · exact Or.inr hh
  · exact he
  · exact ht2
  · right
    right
    show r.state.first_field_count = some f2.length
    rw [hffc, hlen2]

/-- C7 witness: on `a\nb,c\nd` the second read fails with the mismatch
error, counters advance, and the third read returns `d`. -/
theorem C7_mismatch_keeps_stream_usable_witness :
    read_record_bytes (afterReads
        (mkReader [97, 10, 98, 44, 99, 10, 100] (Config.mk false false)) 1) =
      (errReader (afterReads
          (mkReader [97, 10, 98, 44, 99, 10, 100] (Config.mk false false)) 1)
        4 1,
        [[98], [99]],
        Except.error (Error.unequalLengths 1 (Position.mk 2 2 1) 2)) ∧
    read_record_bytes (errReader (afterReads
        (mkReader [97, 10, 98, 44, 99, 10, 100] (Config.mk false false)) 1)
        4 1) =
      ((read_record_bytes_impl (errReader (afterReads
          (mkReader [97, 10, 98, 44, 99, 10, 100] (Config.mk false false)) 1)
          4 1)).1,
        [[100]], Except.ok false) := by
  have h := C7_mismatch_keeps_stream_usable
    (afterReads (mkReader [97, 10, 98, 44, 99, 10, 100]
      (Config.mk false false)) 1)
    [[98], [99]] 4 1 1 (by decide) (by decide) (by decide) (by decide)
    (by decide) (by decide) (by decide)
  exact ⟨h.1, h.2.2.2.2.2.2 [[100]] 1 0 (by decide) (by decide)⟩

/-! ### Claim C2 -/

/-- C2 (counterexample): on `a,b\nc` with header handling enabled, the
header row has 2 fields and the first non-header record `c` has 1.  If
the expected count were established by the first non-header record (as
the claim states), the very first read would deliver `c` successfully
with expected count 1; instead it fails with a mismatch whose expected
count is 2 — the header row's field count established the expected
count. -/
theorem C2_cex_expected_count_from_header_row :
    resOf (read_record_bytes
        (mkReader [97, 44, 98, 10, 99] (Config.mk true false))) =
      Except.error (Error.unequalLengths 2 (Position.mk 4 2 1) 1) ∧
    (tokRecords [97, 44, 98, 10, 99]).getD 0 [] = [[97], [98]] ∧
    (tokRecords [97, 44, 98, 10, 99]).getD 1 [] = [[99]] ∧
    ([[99]] : ByteRecord).length = 1 ∧ (2 : Nat) ≠ 1 := by
  decide

/-- C2 (amended): the expected field count used by strict-mode length
checking is set exactly once, and it is the field count of the first
record PARSED from the stream — the header row when header handling is
enabled, or a record parsed by a header accessor — not the first record
delivered to the caller: a completed parse of an `f`-field record sets
an unset count to `f.length`, and never changes an established count. -/
theorem C2_first_field_count_set_once (r : Reader) (f : ByteRecord)
    (nin nl : Nat)
    (hflex : r.state.flexible = false) (he : r.state.eof = false)
    (ht : tokenizeRecord (r.data.drop r.rdrPos) = some (f, nin, nl)) :
    (r.state.first_field_count = none →
      (read_record_bytes_impl r).1.state.first_field_count = some f.length) ∧
    (∀ c, r.state.first_field_count = some c →
      (read_record_bytes_impl r).1.state.first_field_count = some c) := by
  have himpl := impl_rec r f nin nl he ht
  have h1 : (read_record_bytes_impl r).1.state =
      (add_record (stepState r nin nl) f.length).1 := by
    rw [himpl]
  constructor
  · intro hffc
    rw [h1, add_record_first_count (stepState r nin nl) f.length hflex hffc]
  · intro c hffc
    rw [h1]
    exact add_record_ffc_some (stepState r nin nl) f.length c hffc

/-- C2 witness: the header row of `a,b\nc` establishes expected count 2,
and an established count 1 survives a later 1-field parse. -/
theorem C2_first_field_count_set_once_witness :
    (read_record_bytes_impl (mkReader [97, 44, 98, 10, 99]
      (Config.mk true false))).1.state.first_field_count = some 2 ∧
    (read_record_bytes_impl (afterReads (mkReader [97, 10, 98]
      (Config.mk false false)) 1)).1.state.first_field_count = some 1 := by
  constructor
  · exact (C2_first_field_count_set_once
      (mkReader [97, 44, 98, 10, 99] (Config.mk true false))
      [[97], [98]] 4 1 (by decide) (by decide) (by decide)).1 (by decide)
  · exact (C2_first_field_count_set_once
      (afterReads (mkReader [97, 10, 98] (Config.mk false false)) 1)
      [[98]] 1 0 (by decide) (by decide) (by decide)).2 1 (by decide)

/-! ### Claim C5 -/

/-- The C5 counterexample reader: `has_headers` disabled on `a\nb\nc`,
with `byte_headers` called first.  That call physically consumes the
first record `a` and caches it, leaving the position at `{2, 2, 1}`
while the delivery of `a` is deferred to the next read. -/
def rC5 : Reader :=
  (byte_headers (mkReader [97, 10, 98, 10, 99] (Config.mk false false))).1

/-- C5 (counterexample): `p = {2, 2, 1}` is returned by `position()` at a
true record boundary (`b` starts there), and the underlying bytes never
change.  A non-seeked read at that point produces `a` (the deferred
header replay); but after reading on and seeking back to `p`, the next
read produces `b` — not the record the non-seeked read would have
produced.  (`position()` right after the seek does equal `p`.) -/
theorem C5_cex_seek_read_vs_deferred_replay :
    position rC5 = Position.mk 2 2 1 ∧
    recOf (read_record_bytes rC5) = [[97]] ∧
    (seek (afterReads rC5 3) (Position.mk 2 2 1)).2 = Except.ok () ∧
    position (seek (afterReads rC5 3) (Position.mk 2 2 1)).1 =
      Position.mk 2 2 1 ∧
    recOf (read_record_bytes
      (seek (afterReads rC5 3) (Position.mk 2 2 1)).1) = [[98]] ∧
    ([[98]] : ByteRecord) ≠ [[97]] := by
  decide

/-- C5 (amended): for a position `p` observed via `position()` at a true
record boundary where no deferred header replay was pending (the first
record had already been delivered and a header was cached — the
observation state `r1`), seeking any later state `r2` of the same stream
(same data, same set-once expected count and mode, at a different byte
offset) back to `p` and reading reproduces exactly the record the
non-seeked read at `r1` would have produced, with the same
success/end-of-stream outcome, and `position()` immediately after the
seek equals `p`. -/
theorem C5_seek_read_deterministic (r1 r2 : Reader) (p : Position)
    (hdata : r2.data = r1.data)
    (hpos : r1.state.cur_pos = p)
    (hrdr : r1.rdrPos = p.byte)
    (hf1 : r1.state.first = true)
    (hf2 : r2.state.first = true)
    (hh1 : r1.state.headers.isSome = true)
    (he1 : r1.state.eof = false)
    (hflex : r2.state.flexible = r1.state.flexible)
    (hffc : r2.state.first_field_count = r1.state.first_field_count)
    (hbyte : p.byte ≠ r2.state.cur_pos.byte) :
    position (seek r2 p).1 = p ∧
    recOf (read_record_bytes (seek r2 p).1) = recOf (read_record_bytes r1) ∧
    (∀ b, resOf (read_record_bytes (seek r2 p).1) = Except.ok b ↔
      resOf (read_record_bytes r1) = Except.ok b) := by
  have hs2 : seek r2 p = seek_raw r2 p.byte p := by
    unfold seek
    rw [if_neg hbyte]
  have hR : (seek r2 p).1 = { r2 with
      rdrPos := p.byte
      coreLine := p.line
      state := { r2.state with
        seeked := true, prev_pos := p, cur_pos := p, eof := false } } := by
    rw [hs2]
    rfl
  rw [hR]
  set R : Reader := { r2 with
      rdrPos := p.byte
      coreLine := p.line
      state := { r2.state with
        seeked := true, prev_pos := p, cur_pos := p, eof := false } } with hRdef
  have hposR : position R = p := rfl
  have ht1base : tokenizeRecord (r1.data.drop p.byte) =
      tokenizeRecord (r1.data.drop r1.rdrPos) := by
    rw [hrdr]
  refine ⟨hposR, ?_⟩
  cases ht : tokenizeRecord (r1.data.drop p.byte) with
  | none =>
    have ht1 : tokenizeRecord (r1.data.drop r1.rdrPos) = none := by
      rw [← ht1base, ht]
    have htR : tokenizeRecord (R.data.drop R.rdrPos) = none := by
      show tokenizeRecord (r2.data.drop p.byte) = none
      rw [hdata, ht]
    have hread1 := steady_read_end r1 hf1 (Or.inr hh1) he1 ht1
    have hreadR := steady_read_end R hf2 (Or.inl rfl) rfl htR
    rw [hread1, hreadR]
    unfold recOf resOf
    exact ⟨rfl, fun b => Iff.rfl⟩
  | some v =>
    obtain ⟨f, nin, nl⟩ := v
    have ht1 : tokenizeRecord (r1.data.drop r1.rdrPos) = some (f, nin, nl) := by
      rw [← ht1base, ht]
    have htR : tokenizeRecord (R.data.drop R.rdrPos) = some (f, nin, nl) := by
      show tokenizeRecord (r2.data.drop p.byte) = some (f, nin, nl)
      rw [hdata, ht]
    have hflexR : R.state.flexible = r1.state.flexible := hflex
    have hffcR : R.state.first_field_count = r1.state.first_field_count := hffc
    by_cases hadm : r1.state.flexible = true ∨
        r1.state.first_field_count = none ∨
        r1.state.first_field_count = some f.length
    · have hread1 := steady_read_ok r1 f nin nl hf1 (Or.inr hh1) he1 ht1 hadm
      have hadmR : R.state.flexible = true ∨
          R.state.first_field_count = none ∨
          R.state.first_field_count = some f.length := by
        rw [hflexR, hffcR]
        exact hadm
      have hreadR := steady_read_ok R f nin nl hf2 (Or.inl rfl) rfl htR hadmR
      rw [hread1, hreadR]
      unfold recOf resOf
      exact ⟨rfl, fun b => Iff.rfl⟩
    · have hflex1 : r1.state.flexible = false := by
        cases hb : r1.state.flexible with
        | false => rfl
        | true => exact absurd (Or.inl hb) hadm
      obtain ⟨e, hffc1⟩ : ∃ e, r1.state.first_field_count = some e := by
        cases hc : r1.state.first_field_count with
        | none => exact absurd (Or.inr (Or.inl hc)) hadm
        | some e => exact ⟨e, rfl⟩
      have hne : f.length ≠ e := by
        intro heq
        exact hadm (Or.inr (Or.inr (by rw [hffc1, heq])))
      have hread1 := mismatch_step r1 f nin nl e hf1 he1 hflex1 hffc1 ht1 hne
      have hreadR := mismatch_step R f nin nl e hf2 rfl
        (by rw [hflexR]; exact hflex1) (by rw [hffcR]; exact hffc1) htR hne
      rw [hread1, hreadR]
      unfold recOf resOf
      refine ⟨rfl, fun b => ?_⟩
      constructor
      · intro hcontra
        simp at hcontra
      · intro hcontra
        simp at hcontra

/-- C5 witness: the amended statement on `a\nb\n`, observing after one
read and seeking back after two. -/
theorem C5_seek_read_deterministic_witness :
    position (seek (afterReads (mkReader [97, 10, 98, 10]
        (Config.mk false false)) 2) (Position.mk 2 2 1)).1 =
      Position.mk 2 2 1 ∧
    recOf (read_record_bytes (seek (afterReads (mkReader [97, 10, 98, 10]
        (Config.mk false false)) 2) (Position.mk 2 2 1)).1) =
      recOf (read_record_bytes (afterReads (mkReader [97, 10, 98, 10]
        (Config.mk false false)) 1)) ∧
    (∀ b, resOf (read_record_bytes (seek (afterReads
        (mkReader [97, 10, 98, 10] (Config.mk false false)) 2)
        (Position.mk 2 2 1)).1) = Except.ok b ↔
      resOf (read_record_bytes (afterReads (mkReader [97, 10, 98, 10]
        (Config.mk false false)) 1)) = Except.ok b) :=
  C5_seek_read_deterministic
    (afterReads (mkReader [97, 10, 98, 10] (Config.mk false false)) 1)
    (afterReads (mkReader [97, 10, 98, 10] (Config.mk false false)) 2)
    (Position.mk 2 2 1)
    (by decide) (by decide) (by decide) (by decide) (by decide) (by decide)
    (by decide) (by decide) (by decide) (by decide)

/-! ### The steady run, for C4 -/

/-- Admissibility of a stretch of upcoming records for strict-mode
checking: either the mode is flexible, or there is a single field count
`c` that the (possibly still unset) expected count and every upcoming
record agree on. -/
def CountOk (flex : Bool) (ffc : Option Nat) (recs : List ByteRecord) : Prop :=
  flex = true ∨
    ∃ c, (ffc = none ∨ ffc = some c) ∧ ∀ rec ∈ recs, rec.length = c

/-- One steady read step with its state invariant: the head physical
record is returned and the invariant carries to the stepped reader. -/
theorem steady_step_inv (r : Reader) (f : ByteRecord) (rest : List ByteRecord)
    (hS1 : r.state.first = true) (hS2 : r.state.headers.isSome = true)
    (hS3 : r.state.eof = false)
    (htr : tokRecords (r.data.drop r.rdrPos) = f :: rest)
    (hcnt : CountOk r.state.flexible r.state.first_field_count (f :: rest)) :
    read_record_bytes r = ((read_record_bytes_impl r).1, f, Except.ok false) ∧
    (read_record_bytes_impl r).1.state.first = true ∧
    (read_record_bytes_impl r).1.state.headers = r.state.headers ∧
    (read_record_bytes_impl r).1.state.eof = false ∧
    (read_record_bytes_impl r).1.data = r.data ∧
    tokRecords ((read_record_bytes_impl r).1.data.drop
      (read_record_bytes_impl r).1.rdrPos) = rest ∧
    CountOk (read_record_bytes_impl r).1.state.flexible
      (read_record_bytes_impl r).1.state.first_field_count rest := by
  obtain ⟨nin, nl, ht, hrest⟩ := tokRecords_cons_inv _ f rest htr
  have hok : r.state.flexible = true ∨ r.state.first_field_count = none ∨
      r.state.first_field_count = some f.length := by
    cases hcnt with
    | inl h => exact Or.inl h
    | inr hex =>
      obtain ⟨c, hor, hall⟩ := hex
      have hfc : f.length = c := hall f (List.mem_cons_self f rest)
      cases hor with
      | inl h => exact Or.inr (Or.inl h)
      | inr h => exact Or.inr (Or.inr (by rw [h, hfc]))
  have hread := steady_read_ok r f nin nl hS1 (Or.inr hS2) hS3 ht hok
  have hp := impl_preserves r
  have himpl := impl_rec r f nin nl hS3 ht
  have hst : (read_record_bytes_impl r).1.state =
      (add_record (stepState r nin nl) f.length).1 := by
    rw [himpl]
  have hrdr2 : (read_record_bytes_impl r).1.rdrPos = r.rdrPos + nin := by
    rw [himpl]
  have heof2 : (read_record_bytes_impl r).1.state.eof = false := by
    rw [hst, (add_record_preserves _ _).2.2.2.2.2.1]
    exact hS3
  have hfirst2 : (read_record_bytes_impl r).1.state.first = true := by
    rw [hp.1]
    exact hS1
  have hdrop : (read_record_bytes_impl r).1.data.drop
      ((read_record_bytes_impl r).1.rdrPos) = (r.data.drop r.rdrPos).drop nin := by
    rw [hp.2.2.2.2.2, hrdr2, List.drop_drop]
  have hflex2 : (read_record_bytes_impl r).1.state.flexible =
      r.state.flexible := hp.2.2.2.2.1
  refine ⟨hread, hfirst2, hp.2.1, heof2, hp.2.2.2.2.2, by rw [hdrop]; exact hrest, ?_⟩
  cases hcnt with
  | inl hfl =>
    left
    rw [hflex2]
    exact hfl
  | inr hex =>
    obtain ⟨c, hor, hall⟩ := hex
    have hfc : f.length = c := hall f (List.mem_cons_self f rest)
    have htail : ∀ rec ∈ rest, rec.length = c := by
      intro rec hrec
      exact hall rec (List.mem_cons_of_mem f hrec)
    right
    refine ⟨c, ?_, htail⟩
    rw [hst]
    cases hflcase : r.state.flexible with
    | true =>
      have hstep2 : (stepState r nin nl).flexible = true := hflcase
      rw [add_record_flex (stepState r nin nl) f.length hstep2]
      exact hor
    | false =>
      have hstep2 : (stepState r nin nl).flexible = false := hflcase
      cases hor with
      | inl hnone =>
        rw [add_record_first_count (stepState r nin nl) f.length hstep2 hnone]
        right
        rw [hfc]
      | inr hsome =>
        right
        exact add_record_ffc_some (stepState r nin nl) f.length c hsome

/-- `afterReads` unfolds on the right: one more read after `k` reads. -/
theorem afterReads_succ (r : Reader) (k : Nat) :
    afterReads r (k + 1) = (read_record_bytes (afterReads r k)).1 := by
  induction k generalizing r with
  | zero => rfl
  | succ n ih =>
    show afterReads (read_record_bytes r).1 (n + 1) =
      (read_record_bytes (afterReads (read_record_bytes r).1 n)).1
    exact ih (read_record_bytes r).1

/-- The steady-run invariant: from a steady reader whose upcoming
physical records are `recs` and admissible, after any `i ≤ recs.length`
reads the reader is still steady, its header cache is untouched, and the
remaining physical records are `recs.drop i`. -/
theorem steady_run_inv (recs : List ByteRecord) (r : Reader)
    (hS1 : r.state.first = true) (hS2 : r.state.headers.isSome = true)
    (hS3 : r.state.eof = false)
    (htr : tokRecords (r.data.drop r.rdrPos) = recs)
    (hcnt : CountOk r.state.flexible r.state.first_field_count recs) :
    ∀ i, i ≤ recs.length →
      (afterReads r i).state.first = true ∧
      (afterReads r i).state.headers = r.state.headers ∧
      (afterReads r i).state.eof = false ∧
      (afterReads r i).data = r.data ∧
      tokRecords ((afterReads r i).data.drop (afterReads r i).rdrPos) =
        recs.drop i ∧
      CountOk (afterReads r i).state.flexible
        (afterReads r i).state.first_field_count (recs.drop i) := by
  intro i
  induction i with
  | zero =>
    intro _
    exact ⟨hS1, rfl, hS3, rfl, by rw [List.drop_zero]; exact htr,
      by rw [List.drop_zero]; exact hcnt⟩
  | succ n ih =>
    intro hi
    have hn : n ≤ recs.length := Nat.le_of_succ_le hi
    have hlt : n < recs.length := hi
    obtain ⟨i1, i2, i3, i4, i5, i6⟩ := ih hn
    have hdropn : recs.drop n = recs.get ⟨n, hlt⟩ :: recs.drop (n + 1) :=
      List.drop_eq_getElem_cons hlt
    rw [hdropn] at i5 i6
    have hisSome : (afterReads r n).state.headers.isSome = true := by
      rw [i2]
      exact hS2
    obtain ⟨s1, s2, s3, s4, s5, s6, s7⟩ := steady_step_inv (afterReads r n)
      (recs.get ⟨n, hlt⟩) (recs.drop (n + 1)) i1 hisSome i3 i5 i6
    have hnext : afterReads r (n + 1) =
        (read_record_bytes_impl (afterReads r n)).1 := by
      rw [afterReads_succ, s1]
    rw [hnext]
    exact ⟨s2, by rw [s3]; exact i2, s4, by rw [s5]; exact i4, s6, s7⟩

/-- The steady-run read: the `(i+1)`-th steady read returns the `i`-th
upcoming physical record. -/
theorem steady_run_read (recs : List ByteRecord) (r : Reader)
    (hS1 : r.state.first = true) (hS2 : r.state.headers.isSome = true)
    (hS3 : r.state.eof = false)
    (htr : tokRecords (r.data.drop r.rdrPos) = recs)
    (hcnt : CountOk r.state.flexible r.state.first_field_count recs) :
    ∀ i, (hi : i < recs.length) →
      read_record_bytes (afterReads r i) =
        ((read_record_bytes_impl (afterReads r i)).1, recs.getD i [],
          Except.ok false) := by
  intro i hi
  obtain ⟨i1, i2, i3, i4, i5, i6⟩ :=
    steady_run_inv recs r hS1 hS2 hS3 htr hcnt i (Nat.le_of_lt hi)
  have hdropn : recs.drop i = recs.get ⟨i, hi⟩ :: recs.drop (i + 1) :=
    List.drop_eq_getElem_cons hi
  rw [hdropn] at i5 i6
  have hisSome : (afterReads r i).state.headers.isSome = true := by
    rw [i2]
    exact hS2
  have hstep := steady_step_inv (afterReads r i)
    (recs.get ⟨i, hi⟩) (recs.drop (i + 1)) i1 hisSome i3 i5 i6
  rw [hstep.1, List.getD_eq_getElem recs [] hi]
  rfl

/-- The raw header accessor on a reader with a cached header returns the
cached bytes without touching the stream. -/
theorem byte_headers_cached (r : Reader) (hd : Headers)
    (hc : r.state.headers = some hd) :
    byte_headers r = (r, Except.ok hd.byte_record) := by
  unfold byte_headers byteHeadersResult
  simp [hc]

/-- The first public read of a fresh header-suppressed stream with at
least two physical records: the header row is parsed and cached, a
second inner read delivers the second physical record, and the resulting
reader is steady with the remaining records ahead of it. -/
theorem first_read_suppressed (data : List Nat) (cfg : Config)
    (hh : cfg.has_headers = true)
    (R0 R1 : ByteRecord) (rest2 : List ByteRecord)
    (htr : tokRecords data = R0 :: R1 :: rest2)
    (hcnt : CountOk cfg.flexible none (R0 :: R1 :: rest2)) :
    (read_record_bytes (mkReader data cfg)).2.1 = R1 ∧
    (read_record_bytes (mkReader data cfg)).2.2 = Except.ok false ∧
    (read_record_bytes (mkReader data cfg)).1.state.first = true ∧
    (read_record_bytes (mkReader data cfg)).1.state.headers =
      some (Headers.mk (some Position.start) R0 (from_byte_record R0)) ∧
    (read_record_bytes (mkReader data cfg)).1.state.eof = false ∧
    (read_record_bytes (mkReader data cfg)).1.data = data ∧
    tokRecords ((read_record_bytes (mkReader data cfg)).1.data.drop
      (read_record_bytes (mkReader data cfg)).1.rdrPos) = rest2 ∧
    CountOk (read_record_bytes (mkReader data cfg)).1.state.flexible
      (read_record_bytes (mkReader data cfg)).1.state.first_field_count
      rest2 := by
  obtain ⟨nin0, nl0, ht0', hrest0⟩ :=
    tokRecords_cons_inv data R0 (R1 :: rest2) htr
  have ht0 : tokenizeRecord ((mkReader data cfg).data.drop
      (mkReader data cfg).rdrPos) = some (R0, nin0, nl0) := by
    show tokenizeRecord (data.drop 0) = some (R0, nin0, nl0)
    rw [List.drop_zero]
    exact ht0'
  have himpl0 := impl_rec (mkReader data cfg) R0 nin0 nl0 rfl ht0
  have hok0 : (add_record (stepState (mkReader data cfg) nin0 nl0)
      R0.length).2 = none := by
    rw [add_record_ok_iff]
    right
    left
    rfl
  have hres0 : (read_record_bytes_impl (mkReader data cfg)).2.2 =
      Except.ok false := by
    rw [himpl0, hok0]
  have hp0 := impl_preserves (mkReader data cfg)
  have hc0 : (!(read_record_bytes_impl (mkReader data cfg)).1.state.seeked &&
      (read_record_bytes_impl (mkReader data cfg)).1.state.headers.isNone) =
      true := by
    rw [hp0.2.2.1, hp0.2.1]
    rfl
  have hread0 : read_record_bytes (mkReader data cfg) =
      read_record_bytes_impl (cacheReader (mkReader data cfg)) := by
    rw [read_suppressed (mkReader data cfg) hh,
      main_eq_cache_suppressed (mkReader data cfg) false hres0 hc0 hh]
  have hcf := cacheReader_fields (mkReader data cfg)
  have hrec0 : (read_record_bytes_impl (mkReader data cfg)).2.1 = R0 := by
    rw [himpl0]
  have hCRhdr : (cacheReader (mkReader data cfg)).state.headers =
      some (Headers.mk (some Position.start) R0 (from_byte_record R0)) := by
    rw [hcf.2.1, hrec0]
    rfl
  have heof0 : (read_record_bytes_impl (mkReader data cfg)).1.state.eof =
      false := by
    rw [himpl0]
    show (add_record (stepState (mkReader data cfg) nin0 nl0)
      R0.length).1.eof = false
    rw [(add_record_preserves _ _).2.2.2.2.2.1]
    rfl
  have hCReof : (cacheReader (mkReader data cfg)).state.eof = false := by
    rw [hcf.2.2.1]
    exact heof0
  have hCRfirst : (cacheReader (mkReader data cfg)).state.first = true :=
    hcf.1
  have hCRdata : (cacheReader (mkReader data cfg)).data = data := by
    rw [hcf.2.2.2.2.2.1, hp0.2.2.2.2.2]
    rfl
  have hrdr0 : (read_record_bytes_impl (mkReader data cfg)).1.rdrPos =
      nin0 := by
    rw [himpl0]
    show 0 + nin0 = nin0
    rw [Nat.zero_add]
  have hCRtok : tokRecords ((cacheReader (mkReader data cfg)).data.drop
      (cacheReader (mkReader data cfg)).rdrPos) = R1 :: rest2 := by
    rw [hCRdata, hcf.2.2.2.2.2.2.1, hrdr0]
    exact hrest0
  have hCRflex : (cacheReader (mkReader data cfg)).state.flexible =
      cfg.flexible := by
    rw [hcf.2.2.2.2.2.2.2.2.1, hp0.2.2.2.2.1]
    rfl
  have hCRcnt : CountOk (cacheReader (mkReader data cfg)).state.flexible
      (cacheReader (mkReader data cfg)).state.first_field_count
      (R1 :: rest2) := by
    have hCRffc : (cacheReader (mkReader data cfg)).state.first_field_count =
        (add_record (stepState (mkReader data cfg) nin0 nl0)
          R0.length).1.first_field_count := by
      rw [hcf.2.2.2.2.2.2.2.2.2.1]
      rw [himpl0]
    cases hcnt with
    | inl hfl =>
      left
      rw [hCRflex]
      exact hfl
    | inr hex =>
      obtain ⟨c, _, hall⟩ := hex
      have hR0c : R0.length = c := hall R0 (List.mem_cons_self _ _)
      have htail : ∀ rec ∈ R1 :: rest2, rec.length = c := by
        intro rec hrec
        exact hall rec (List.mem_cons_of_mem R0 hrec)
      cases hflcase : cfg.flexible with
      | true =>
        left
        rw [hCRflex]
        exact hflcase
      | false =>
        right
        refine ⟨c, ?_, htail⟩
        right
        rw [hCRffc, add_record_first_count (stepState (mkReader data cfg)
          nin0 nl0) R0.length hflcase rfl, hR0c]
  have hstep := steady_step_inv (cacheReader (mkReader data cfg)) R1 rest2
    hCRfirst (by rw [hCRhdr]; rfl) hCReof hCRtok hCRcnt
  obtain ⟨nin1, nl1, ht1, hrest1⟩ :=
    tokRecords_cons_inv _ R1 rest2 hCRtok
  have himpl1 := impl_rec (cacheReader (mkReader data cfg)) R1 nin1 nl1
    hCReof ht1
  have hok1 : (add_record (stepState (cacheReader (mkReader data cfg))
      nin1 nl1) R1.length).2 = none := by
    rw [add_record_ok_iff]
    cases hCRcnt with
    | inl h => exact Or.inl h
    | inr hex =>
      obtain ⟨c, hor, hall⟩ := hex
      have hfc : R1.length = c := hall R1 (List.mem_cons_self _ _)
      cases hor with
      | inl h => exact Or.inr (Or.inl h)
      | inr h => exact Or.inr (Or.inr (by rw [← hfc] at h; exact h))
  rw [hread0]
  refine ⟨by rw [himpl1], by rw [himpl1, hok1], hstep.2.1,
    by rw [hstep.2.2.1, hCRhdr], hstep.2.2.2.1,
    by rw [hstep.2.2.2.2.1, hCRdata], hstep.2.2.2.2.2.1,
    hstep.2.2.2.2.2.2⟩

/-! ### Claim C4 -/

/-- C4: on a stream with header suppression enabled whose physical
records all parse (flexible mode, or a uniform field count), the N-th
call (1-indexed) to `read_record_bytes` returns the data of the
(N+1)-th physical record (index N, 0-based) with a non-end-of-stream
result, and the very first physical record is the value the
`byte_headers` accessor returns afterwards. -/
theorem C4_header_shift (data : List Nat) (cfg : Config)
    (hh : cfg.has_headers = true)
    (hcnt : cfg.flexible = true ∨
      ∃ c, ∀ rec ∈ tokRecords data, rec.length = c)
    (N : Nat) (h1 : 1 ≤ N) (h2 : N < (tokRecords data).length) :
    recOf (read_record_bytes (afterReads (mkReader data cfg) (N - 1))) =
      (tokRecords data).getD N [] ∧
    resOf (read_record_bytes (afterReads (mkReader data cfg) (N - 1))) =
      Except.ok false ∧
    (byte_headers (afterReads (mkReader data cfg) N)).2 =
      Except.ok ((tokRecords data).getD 0 []) := by
  cases htr0 : tokRecords data with
  | nil =>
    rw [htr0] at h2
    simp at h2
  | cons R0 tail =>
    cases htail : tail with
    | nil =>
      rw [htr0, htail] at h2
      simp at h2
      omega
    | cons R1 rest2 =>
      subst htail
      have hcnt0 : CountOk cfg.flexible none (R0 :: R1 :: rest2) := by
        cases hcnt with
        | inl h => exact Or.inl h
        | inr hex =>
          obtain ⟨c, hall⟩ := hex
          right
          exact ⟨c, Or.inl rfl, by rw [← htr0]; exact hall⟩
      have F := first_read_suppressed data cfg hh R0 R1 rest2 htr0 hcnt0
      have hlen2 : N < rest2.length + 2 := by
        rw [htr0] at h2
        simpa using h2
      set rd1 := (read_record_bytes (mkReader data cfg)).1 with hrd1
      have hrd1hdr : rd1.state.headers =
          some (Headers.mk (some Position.start) R0 (from_byte_record R0)) :=
        F.2.2.2.1
      have hS2 : rd1.state.headers.isSome = true := by
        rw [hrd1hdr]
        rfl
      cases N with
      | zero => omega
      | succ m =>
        cases m with
        | zero =>
          refine ⟨?_, F.2.1, ?_⟩
          · show recOf (read_record_bytes (mkReader data cfg)) =
              (R0 :: R1 :: rest2).getD (0 + 1) []
            exact F.1
          · show (byte_headers rd1).2 =
              Except.ok ((R0 :: R1 :: rest2).getD 0 [])
            rw [byte_headers_cached rd1 _ hrd1hdr]
            rfl
        | succ k =>
          have hk : k < rest2.length := by omega
          have hrun := steady_run_read rest2 rd1 F.2.2.1 hS2 F.2.2.2.2.1
            F.2.2.2.2.2.2.1 F.2.2.2.2.2.2.2 k hk
          refine ⟨?_, ?_, ?_⟩
          · show recOf (read_record_bytes (afterReads rd1 k)) =
              (R0 :: R1 :: rest2).getD (k + 1 + 1) []
            rw [hrun]
            rfl
          · show resOf (read_record_bytes (afterReads rd1 k)) =
              Except.ok false
            rw [hrun]
            rfl
          · have hinv := steady_run_inv rest2 rd1 F.2.2.1 hS2 F.2.2.2.2.1
              F.2.2.2.2.2.2.1 F.2.2.2.2.2.2.2 (k + 1) (by omega)
            have hh2 : (afterReads rd1 (k + 1)).state.headers =
                some (Headers.mk (some Position.start) R0
                  (from_byte_record R0)) := by
              rw [hinv.2.1, hrd1hdr]
            show (byte_headers (afterReads rd1 (k + 1))).2 =
              Except.ok ((R0 :: R1 :: rest2).getD 0 [])
            rw [byte_headers_cached _ _ hh2]
            rfl

/-- C4 witness: on `h\na\nb` with headers enabled, the 2nd call returns
the 3rd physical record and `byte_headers` afterwards returns the first
physical record. -/
theorem C4_header_shift_witness :
    recOf (read_record_bytes (afterReads
        (mkReader [104, 10, 97, 10, 98] (Config.mk true false)) (2 - 1))) =
      (tokRecords [104, 10, 97, 10, 98]).getD 2 [] ∧
    resOf (read_record_bytes (afterReads
        (mkReader [104, 10, 97, 10, 98] (Config.mk true false)) (2 - 1))) =
      Except.ok false ∧
    (byte_headers (afterReads
        (mkReader [104, 10, 97, 10, 98] (Config.mk true false)) 2)).2 =
      Except.ok ((tokRecords [104, 10, 97, 10, 98]).getD 0 []) :=
  C4_header_shift [104, 10, 97, 10, 98] (Config.mk true false) rfl
    (Or.inr ⟨1, by decide⟩) 2 (by decide) (by decide)

end CsvReader
